import Mathlib

/-!
Verification development for the directory-dump tool (src/print-file-content.py).

The program walks a directory tree and prints an ASCII tree (optionally with
per-file line counts) and/or the textual contents of every non-ignored file.
This file gives a shallow embedding of the program over an explicit
filesystem-tree model:

* the filesystem is an `FSTree` (directories hold named children; a file holds
  the outcome of opening it: UTF-8 text, undecodable bytes, or an OS-level
  read failure);
* Python exceptions are an explicit `Except PyError` result;
* `re.match` is embedded by a small regular-expression interpreter
  (`positions`) over an AST that transcribes the exact pattern strings of the
  source, including the fused literal produced by the missing comma;
* `os.path.abspath` (which depends on the process working directory) and
  `mimetypes.guess_type` (a stateful library table) are abstract parameters
  `ap` and `gt`;
* each Python `print(x)` call is one element of an output `List String`.

Directory listings are modelled with the stored child order standing for the
arbitrary order returned by `os.listdir` / `os.walk`; real directories have
pairwise-distinct child names.
-/

/-! ### List and string helpers -/

theorem sizeOf_filter_le {α : Type} [SizeOf α] (p : α → Bool) (l : List α) :
    sizeOf (List.filter p l) ≤ sizeOf l := by
  induction l with
  | nil => simp
  | cons a l ih =>
    simp only [List.filter_cons]
    split
    · simp only [List.cons.sizeOf_spec]; omega
    · simp only [List.cons.sizeOf_spec]; omega

/-- Lexicographic strict comparison of character lists by code point;
this is how Python compares strings (used by `items.sort()`). -/
def strLt : List Char → List Char → Bool
  | [], [] => false
  | [], _ :: _ => true
  | _ :: _, [] => false
  | a :: as, b :: bs => if a < b then true else if b < a then false else strLt as bs

/-- Python `a + b` on path strings via `os.path.join`. -/
def pjoin (a b : String) : String :=
  if b.toList.head? = some '/' then b
  else if a = "" then b
  else if a.toList.getLast? = some '/' then a ++ b
  else a ++ "/" ++ b

/-- `os.path.basename`: the part of the path after the last slash. -/
def basename (p : String) : String :=
  String.mk (p.toList.foldl (fun acc c => if c = '/' then [] else acc ++ [c]) [])

/-- `startswith` on strings, via the character lists. -/
def strPrefix (a b : String) : Bool := a.toList.isPrefixOf b.toList

/-- `endswith` on strings, via the character lists. -/
def strSuffix (a b : String) : Bool := a.toList.isSuffixOf b.toList

/-! ### Regular expressions (`re.match`)

The AST has exactly the constructs used by the hardcoded patterns.  Python
semantics embedded: `.` matches any character except a newline; `$` matches at
the end of the string or just before a trailing newline; `^` matches at the
start; `re.match` anchors at the start of the string only. -/

inductive Regex where
  | eps
  | char (c : Char)
  | anyChar
  | seq (a b : Regex)
  | alt (a b : Regex)
  | star (a : Regex)
  | startAnchor
  | endAnchor
deriving DecidableEq

/-- Iterated continuation positions for `star`: from position `i`, zero or
more further matches of the inner expression, each consuming at least one
character (an empty-width repetition adds nothing to a Kleene iteration).
`fuel` bounds the chain length; chains are strictly increasing and bounded by
the string length, so `slen + 1` fuel is exhaustive. -/
def starPos (f : Nat → List Nat) (slen : Nat) : Nat → Nat → List Nat
  | 0, i => [i]
  | fuel + 1, i =>
    i :: ((f i).filter (fun j => decide (i < j) && decide (j ≤ slen))).flatMap
      (fun j => starPos f slen fuel j)

/-- `positions r s i` lists the end positions of matches of `r` in `s`
beginning at position `i` (with duplicates allowed); anchors consult the whole
string `s`. -/
def positions : Regex → List Char → Nat → List Nat
  | .eps, _, i => [i]
  | .char c, s, i =>
    match s.get? i with
    | some d => if d = c then [i + 1] else []
    | none => []
  | .anyChar, s, i =>
    match s.get? i with
    | some d => if d = '\n' then [] else [i + 1]
    | none => []
  | .startAnchor, _, i => if i = 0 then [i] else []
  | .endAnchor, s, i =>
    if i = s.length || (decide (i + 1 = s.length) && decide (s.get? i = some '\n'))
    then [i] else []
  | .seq a b, s, i => (positions a s i).flatMap (fun j => positions b s j)
  | .alt a b, s, i => positions a s i ++ positions b s i
  | .star a, s, i => starPos (fun k => positions a s k) s.length (s.length + 1) i

/-- `re.match(r, s)` viewed as a Boolean: some match starting at position 0. -/
def reMatch (r : Regex) (s : String) : Bool := !(positions r s.toList 0).isEmpty

/-- A sequence of literal characters. -/
def lit (s : String) : Regex := s.toList.foldr (fun c r => .seq (.char c) r) .eps

/-! ### The hardcoded configuration -/

/-- Pattern 1: the source string `.*[backslash].git(ignore)?$`. -/
def pat_git : Regex :=
  .seq (.star .anyChar) (.seq (lit ".git") (.seq (.alt (lit "ignore") .eps) .endAnchor))

/-- Pattern 2: `.*[backslash].ipynb$`. -/
def pat_ipynb : Regex := .seq (.star .anyChar) (.seq (lit ".ipynb") .endAnchor)

/-- Pattern 3: `^LICENSE$`. -/
def pat_license : Regex := .seq .startAnchor (.seq (lit "LICENSE") .endAnchor)

/-- Pattern 4: `[backslash].env$`. -/
def pat_env : Regex := .seq (lit ".env") .endAnchor

/-- Pattern 5: `__pycache__$`. -/
def pat_pycache : Regex := .seq (lit "__pycache__") .endAnchor

/-- Pattern 6: `.*[backslash].pyc$`. -/
def pat_pyc : Regex := .seq (.star .anyChar) (.seq (lit ".pyc") .endAnchor)

/-- Pattern 7: `.*[backslash].out$`. -/
def pat_out : Regex := .seq (.star .anyChar) (.seq (lit ".out") .endAnchor)

/-- Pattern 8: `test-results[backslash].json$`. -/
def pat_testresults : Regex := .seq (lit "test-results.json") .endAnchor

/-- Pattern 9: the element produced by the missing comma after the
`.sum` entry.  Python implicit adjacent-literal concatenation fuses the two
source lines into the single pattern `.*[backslash].sum$[backslash].terraform[backslash].lock[backslash].hcl$`,
with an interior `$` followed by a literal dot. -/
def pat_sum_fused : Regex :=
  .seq (.star .anyChar)
    (.seq (lit ".sum")
      (.seq .endAnchor
        (.seq (.char '.') (.seq (lit "terraform.lock.hcl") .endAnchor))))

/-- Pattern 10: `[backslash].terraform*` (literal `.terrafor` then `m*`). -/
def pat_terraform : Regex := .seq (lit ".terrafor") (.star (.char 'm'))

/-- The module-level `ignore_patterns` list of the source: ten elements, the
ninth being the fused literal. -/
def ignore_patterns : List Regex :=
  [pat_git, pat_ipynb, pat_license, pat_env, pat_pycache,
   pat_pyc, pat_out, pat_testresults, pat_sum_fused, pat_terraform]

/-- The module-level `blacklist` list of the source. -/
def blacklist : List String := [".git", "node_modules", "__pycache__"]

/-! ### The filter (`should_ignore`) -/

/-- `should_ignore(name, path, patterns, blacklist)`; `ap` embeds
`os.path.abspath` (it depends on the working directory, so it is a
parameter). -/
def should_ignore (ap : String → String) (name path : String)
    (patterns : List Regex) (bl : List String) : Bool :=
  if patterns.any (fun pat => reMatch pat name || reMatch pat path) then true
  else
    let abs_path := ap path
    if bl.any (fun b => basename abs_path == b || strPrefix (ap b) abs_path) then true
    else false

/-! ### The filesystem model and file reading -/

/-- What opening a file as UTF-8 text yields: decodable content, a decode
failure, or an OS-level error (permissions, I/O, ...) carrying `str(e)`. -/
inductive FileData where
  | text (content : String)
  | binary
  | unreadable (msg : String)

/-- A filesystem entry: a file or a directory with named children (stored in
`os.listdir` order). -/
inductive FSTree where
  | file (data : FileData)
  | dir (children : List (String × FSTree))

/-- The Python exceptions relevant to `open`/`read`. -/
inductive PyError where
  | unicodeDecodeError
  | isADirectoryError
  | fileNotFoundError
  | osError (msg : String)
deriving DecidableEq

/-- `open(path).read()` on an existing entry. -/
def pyOpenNode : FSTree → Except PyError String
  | .file (.text c) => .ok c
  | .file .binary => .error .unicodeDecodeError
  | .file (.unreadable m) => .error (.osError m)
  | .dir _ => .error .isADirectoryError

/-- `open(path).read()` where the path may not resolve to any entry. -/
def pyOpen : Option FSTree → Except PyError String
  | none => .error .fileNotFoundError
  | some t => pyOpenNode t

/-- `str(e)` for the modelled exceptions (the concrete text of the two
built-in messages is abbreviated; only the `osError` text is ever compared). -/
def errMsg : PyError → String
  | .unicodeDecodeError => "invalid start byte"
  | .isADirectoryError => "Is a directory"
  | .fileNotFoundError => "No such file or directory"
  | .osError m => m

/-- `sum(1 for _ in f)`: Python file iteration yields one item per line,
where a line is a maximal chunk ending at a newline, and a final chunk
without a trailing newline is still yielded. -/
def pyLineCount : List Char → Nat
  | [] => 0
  | [_] => 1
  | c :: c2 :: rest =>
    if c = '\n' then 1 + pyLineCount (c2 :: rest) else pyLineCount (c2 :: rest)

/-- `count_lines_or_get_type(filepath)`: try to read and count lines; on
`UnicodeDecodeError` or `IsADirectoryError` fall back to
`mimetypes.guess_type` (the parameter `gt`) with the `or "unknown file type"`
default; any other exception propagates. -/
def count_lines_or_get_type (gt : String → Option String) (node : Option FSTree)
    (filepath : String) : Except PyError (Nat ⊕ String) :=
  match pyOpen node with
  | .ok content => .ok (.inl (pyLineCount content.toList))
  | .error .unicodeDecodeError => .ok (.inr ((gt filepath).getD "unknown file type"))
  | .error .isADirectoryError => .ok (.inr ((gt filepath).getD "unknown file type"))
  | .error e => .error e

/-! ### The tree renderer (`display_tree_structure`) -/

/-- The sorting relation of `items.sort()`, lifted to `(name, subtree)`
pairs: compare the names by code point. -/
def childLe (a b : String × FSTree) : Prop := strLt b.1.toList a.1.toList = false

instance : DecidableRel childLe := fun _ _ => inferInstanceAs (Decidable (_ = false))

/-- `os.listdir` + `items.sort()`: the children of a directory in sorted
(stable) name order. -/
def sortChildren (l : List (String × FSTree)) : List (String × FSTree) :=
  l.insertionSort childLe

mutual
/-- `display_tree_structure(folder_path, ignore_patterns, prefix,
show_line_counts)`.  Returns the printed lines and the accumulated
`total_lines`; a propagating exception is an `Except.error`.  A path that is
not a directory returns `([], 0)`; otherwise the children are sorted,
filtered through `should_ignore` (with `ignore_patterns or []` and the
hardcoded blacklist), and processed in order. -/
def display_tree_structure (gt : String → Option String) (ap : String → String)
    (ips : Option (List Regex)) (slc : Bool) :
    FSTree → String → String → Except PyError (List String × Nat)
  | .file _, _, _ => .ok ([], 0)
  | .dir children, folder_path, pfx =>
    displayLoop gt ap ips slc
      ((sortChildren children).filter fun item =>
        !should_ignore ap item.1 (pjoin folder_path item.1) (ips.getD []) blacklist)
      folder_path pfx
termination_by t _ _ => sizeOf t
decreasing_by
  simp_wf
  have h1 := sizeOf_filter_le
    (fun item : String × FSTree =>
      !should_ignore ap item.1 (pjoin folder_path item.1) (ips.getD []) blacklist)
    (sortChildren children)
  have h2 : sizeOf (sortChildren children) = sizeOf children :=
    (List.perm_insertionSort childLe children).sizeOf_eq_sizeOf
  omega

/-- The `for pointer, item in zip(pointers, items)` loop of the renderer: all
entries but the last get the branch connector, the last the corner
connector. -/
def displayLoop (gt : String → Option String) (ap : String → String)
    (ips : Option (List Regex)) (slc : Bool) :
    List (String × FSTree) → String → String → Except PyError (List String × Nat)
  | [], _, _ => .ok ([], 0)
  | (item, .dir sub) :: rest, folder_path, pfx =>
    let pointer := if rest.isEmpty then "└── " else "├── "
    let path := pjoin folder_path item
    let ext := if pointer = "├── " then "│   " else "    "
    match display_tree_structure gt ap ips slc (.dir sub) path (pfx ++ ext) with
    | .error e => .error e
    | .ok (ls, n) =>
      match displayLoop gt ap ips slc rest folder_path pfx with
      | .error e => .error e
      | .ok (ls2, n2) => .ok ((pfx ++ pointer ++ item ++ "/") :: (ls ++ ls2), n + n2)
  | (item, .file d) :: rest, folder_path, pfx =>
    let pointer := if rest.isEmpty then "└── " else "├── "
    let path := pjoin folder_path item
    if slc then
      match count_lines_or_get_type gt (some (.file d)) path with
      | .error e => .error e
      | .ok r =>
        match displayLoop gt ap ips slc rest folder_path pfx with
        | .error e => .error e
        | .ok (ls2, n2) =>
          match r with
          | .inl n =>
            .ok ((pfx ++ pointer ++ item ++ (" (" ++ toString n ++ " lines)")) :: ls2, n + n2)
          | .inr t =>
            .ok ((pfx ++ pointer ++ item ++ (" (" ++ t ++ ")")) :: ls2, n2)
    else
      match displayLoop gt ap ips slc rest folder_path pfx with
      | .error e => .error e
      | .ok (ls2, n2) => .ok ((pfx ++ pointer ++ item) :: ls2, n2)
termination_by l _ _ => sizeOf l
decreasing_by
  all_goals simp_wf <;> omega
end

/-! ### The content dumper (`print_file_contents`) -/

def isDirNode : FSTree → Bool
  | .dir _ => true
  | .file _ => false

/-- The body of the `for filename in files` loop: skip ignored files,
otherwise print `f"{filepath}:\n{content}"`, catching every exception and
printing `f"Error reading {filepath}: {e}"` instead. -/
def dumpEntry (ap : String → String) (ips : Option (List Regex)) (root : String)
    (c : String × FSTree) : List String :=
  if should_ignore ap c.1 (pjoin root c.1) (ips.getD []) blacklist then []
  else
    match pyOpenNode c.2 with
    | .ok content => [pjoin root c.1 ++ ":\n" ++ content]
    | .error e => ["Error reading " ++ pjoin root c.1 ++ ": " ++ errMsg e]

mutual
/-- `print_file_contents(folder_path, ignore_patterns)`: the `os.walk`
traversal.  At each directory, `dirs[:]` is pruned by `should_ignore` before
descending; the current directory's files are processed (top-down order:
files of a directory before its subdirectories' contents).  A non-directory
root yields no iterations. -/
def print_file_contents (ap : String → String) (ips : Option (List Regex)) :
    FSTree → String → Except PyError (List String)
  | .file _, _ => .ok []
  | .dir children, root =>
    let ds := (children.filter fun c => isDirNode c.2).filter fun c =>
      !should_ignore ap c.1 (pjoin root c.1) (ips.getD []) blacklist
    let fls := children.filter fun c => !isDirNode c.2
    match walkDirs ap ips ds root with
    | .error e => .error e
    | .ok rest => .ok (fls.flatMap (dumpEntry ap ips root) ++ rest)
termination_by t _ => sizeOf t
decreasing_by
  simp_wf
  have h1 := sizeOf_filter_le
    (fun c : String × FSTree =>
      !should_ignore ap c.1 (pjoin root c.1) (ips.getD []) blacklist && isDirNode c.2)
    children
  omega

/-- Descent into the pruned subdirectory list, in order. -/
def walkDirs (ap : String → String) (ips : Option (List Regex)) :
    List (String × FSTree) → String → Except PyError (List String)
  | [], _ => .ok []
  | (name, sub) :: rest, root =>
    match print_file_contents ap ips sub (pjoin root name) with
    | .error e => .error e
    | .ok o1 =>
      match walkDirs ap ips rest root with
      | .error e => .error e
      | .ok o2 => .ok (o1 ++ o2)
termination_by l _ => sizeOf l
decreasing_by
  all_goals simp_wf <;> omega
end

/-! ### Spec-side reference definitions -/

mutual
/-- Follows the spec text for claim C1: the sum, over every non-ignored,
non-blacklisted file in the subtree whose contents count as an integer via
`count_lines_or_get_type`, of that integer count (type-string results and
everything else contribute 0).  Defined directly over the stored children,
with no sorting, printing, or exception plumbing. -/
def specSumLines (gt : String → Option String) (ap : String → String)
    (ips : List Regex) : FSTree → String → Nat
  | .file _, _ => 0
  | .dir children, path => specSumChildren gt ap ips children path
termination_by t _ => sizeOf t

/-- Helper of `specSumLines`: the sum over a child list. -/
def specSumChildren (gt : String → Option String) (ap : String → String)
    (ips : List Regex) : List (String × FSTree) → String → Nat
  | [], _ => 0
  | (name, .file d) :: rest, path =>
    (if should_ignore ap name (pjoin path name) ips blacklist then 0
     else
       match count_lines_or_get_type gt (some (.file d)) (pjoin path name) with
       | .ok (.inl n) => n
       | _ => 0)
    + specSumChildren gt ap ips rest path
  | (name, .dir sub) :: rest, path =>
    (if should_ignore ap name (pjoin path name) ips blacklist then 0
     else specSumLines gt ap ips (.dir sub) (pjoin path name))
    + specSumChildren gt ap ips rest path
termination_by l _ => sizeOf l
decreasing_by
  all_goals simp_wf <;> omega
end

/-- Follows the spec text for claim C5: the blacklist rule alone — the
entry's absolute path has basename equal to a blacklist entry, or the
absolute path of a blacklist entry as a prefix. -/
def blacklistHit (ap : String → String) (path : String) (bl : List String) : Bool :=
  bl.any (fun b => basename (ap path) == b || strPrefix (ap b) (ap path))

/-! ### The entry point -/

/-- The parsed command line. -/
structure Args where
  folderPath : Option String
  structureFlag : Bool
  structureAllFlag : Bool
  helpOnly : Bool

/-- The `__main__` block after argument parsing.  `tree` is the filesystem
entry that `args.folderPath` resolves to; `helpText` abstracts the
argparse-generated usage text (library output, not program source).  Returns
the printed lines and the exit code. -/
def main_dispatch (gt : String → Option String) (ap : String → String)
    (helpText : List String) (tree : FSTree) (args : Args) :
    Except PyError (List String × Nat) :=
  if args.helpOnly then .ok (helpText, 0)
  else
    match args.folderPath with
    | none => .ok ("Error: folder_path is required unless --help-only is used." :: helpText, 1)
    | some fp =>
      if args.structureFlag && args.structureAllFlag then
        .ok (["Error: Cannot use --structure and --structure-all at the same time."], 1)
      else if args.structureFlag then
        match display_tree_structure gt ap (some ignore_patterns) true tree fp "" with
        | .error e => .error e
        | .ok (out, total) =>
          .ok ("Directory structure (subject to ignore_patterns):\n" :: out
               ++ ["\nTotal lines in readable files: " ++ toString total], 0)
      else if args.structureAllFlag then
        match display_tree_structure gt ap none true tree fp "" with
        | .error e => .error e
        | .ok (out, total) =>
          .ok ("Directory structure (no ignore_patterns applied):\n" :: out
               ++ ["\nTotal lines in readable files: " ++ toString total], 0)
      else
        match display_tree_structure gt ap (some ignore_patterns) true tree fp "" with
        | .error e => .error e
        | .ok (out, total) =>
          match print_file_contents ap (some ignore_patterns) tree fp with
          | .error e => .error e
          | .ok out2 =>
            .ok ("Directory structure (subject to ignore_patterns):\n" :: out
                 ++ ["\nTotal lines in readable files: " ++ toString total,
                     "\nFile contents:\n"]
                 ++ out2, 0)

/-! ### Witness scaffolding: concrete instantiations of the abstract
`os.path.abspath` and `mimetypes.guess_type` parameters, used by the
concrete-input corollaries below. -/

/-- A concrete absolute-path function: the working directory is `/cwd`. -/
def apWit : String → String := fun s => "/cwd/" ++ s

/-- A concrete media-type table that guesses nothing. -/
def gtWit : String → Option String := fun _ => none

/-! ### The fused ignore pattern never matches -/

/-- After an interior `$` there is no character left to match a literal dot:
either the position is the end of the string, or it sits on a trailing
newline. -/
theorem positions_after_endAnchor (R : Regex) (s : List Char) (k : Nat) :
    positions (.seq .endAnchor (.seq (.char '.') R)) s k = [] := by
  show (positions .endAnchor s k).flatMap _ = []
  rw [positions]
  split
  · rename_i h
    have h' : k = s.length ∨ (k + 1 = s.length ∧ s.get? k = some '\n') := by
      simpa using h
    have hchar : positions (.seq (.char '.') R) s k = [] := by
      show (positions (.char '.') s k).flatMap _ = []
      rcases h' with h' | ⟨h1, h2⟩
      · have : s.get? k = none := by
          rw [List.get?_eq_none]; omega
        rw [positions, this]
        rfl
      · rw [positions, h2]
        simp
    simp [hchar]
  · rfl

/-- The fused pattern `.*[backslash].sum$[backslash].terraform...$` matches no
string at all. -/
theorem pat_sum_fused_no_match (s : String) : reMatch pat_sum_fused s = false := by
  have hpos : positions pat_sum_fused s.toList 0 = [] := by
    show (positions (.star .anyChar) s.toList 0).flatMap _ = []
    rw [List.flatMap_eq_nil_iff]
    intro j _
    show (positions (lit ".sum") s.toList j).flatMap _ = []
    rw [List.flatMap_eq_nil_iff]
    intro k _
    exact positions_after_endAnchor _ s.toList k
  rw [reMatch, hpos]
  rfl

/-- C9: under the hardcoded pattern list, an entry whose name ends in ".sum"
and which matches no pattern other than the fused one (and no blacklist rule)
is not ignored: the missing comma fused the `.sum` pattern with the
`.terraform.lock.hcl` pattern into one pattern with an interior `$`, which
matches nothing, so checksum files are not excluded. -/
theorem c9_sum_files_not_ignored (ap : String → String) (name path : String)
    (hsum : strSuffix ".sum" name = true)
    (hothers : ∀ r ∈ ignore_patterns, r ≠ pat_sum_fused →
      reMatch r name = false ∧ reMatch r path = false)
    (hbl : blacklistHit ap path blacklist = false) :
    should_ignore ap name path ignore_patterns blacklist = false := by
  have h1 := hothers pat_git (by simp [ignore_patterns]) (by decide)
  have h2 := hothers pat_ipynb (by simp [ignore_patterns]) (by decide)
  have h3 := hothers pat_license (by simp [ignore_patterns]) (by decide)
  have h4 := hothers pat_env (by simp [ignore_patterns]) (by decide)
  have h5 := hothers pat_pycache (by simp [ignore_patterns]) (by decide)
  have h6 := hothers pat_pyc (by simp [ignore_patterns]) (by decide)
  have h7 := hothers pat_out (by simp [ignore_patterns]) (by decide)
  have h8 := hothers pat_testresults (by simp [ignore_patterns]) (by decide)
  have h10 := hothers pat_terraform (by simp [ignore_patterns]) (by decide)
  have hany : (ignore_patterns.any fun pat => reMatch pat name || reMatch pat path) = false := by
    simp [ignore_patterns, h1.1, h1.2, h2.1, h2.2, h3.1, h3.2, h4.1, h4.2, h5.1, h5.2,
      h6.1, h6.2, h7.1, h7.2, h8.1, h8.2, h10.1, h10.2, pat_sum_fused_no_match]
  rw [should_ignore, hany]
  simp only [Bool.false_eq_true, if_false]
  rw [blacklistHit] at hbl
  rw [hbl]
  rfl

/-- C9 witness: `go.sum` under directory `p` is not ignored. -/
theorem c9_witness :
    should_ignore apWit "go.sum" "p/go.sum" ignore_patterns blacklist = false :=
  c9_sum_files_not_ignored apWit "go.sum" "p/go.sum" (by decide) (by decide) (by decide)

/-! ### Claim C2: which exceptions the line counter catches -/

/-- C2 (amended): `count_lines_or_get_type` returns an integer or a type
string whenever the read succeeds or raises `UnicodeDecodeError` or
`IsADirectoryError` — but any other exception (missing file, permission
denial) propagates to the caller, because the `except` clause names only
those two exception types. -/
theorem c2_count_lines_exception_behavior (gt : String → Option String)
    (node : Option FSTree) (fp : String) :
    (∀ c, pyOpen node = .ok c →
      count_lines_or_get_type gt node fp = .ok (.inl (pyLineCount c.toList)))
    ∧ (pyOpen node = .error .unicodeDecodeError →
      count_lines_or_get_type gt node fp = .ok (.inr ((gt fp).getD "unknown file type")))
    ∧ (pyOpen node = .error .isADirectoryError →
      count_lines_or_get_type gt node fp = .ok (.inr ((gt fp).getD "unknown file type")))
    ∧ (pyOpen node = .error .fileNotFoundError →
      count_lines_or_get_type gt node fp = .error .fileNotFoundError)
    ∧ (∀ m, pyOpen node = .error (.osError m) →
      count_lines_or_get_type gt node fp = .error (.osError m)) := by
  refine ⟨?_, ?_, ?_, ?_, ?_⟩ <;>
    · intros
      simp_all [count_lines_or_get_type]

/-- C2 witness: a concrete undecodable file falls back to the type string. -/
theorem c2_witness :
    count_lines_or_get_type gtWit (some (.file .binary)) "f" = .ok (.inr "unknown file type") :=
  (c2_count_lines_exception_behavior gtWit (some (.file .binary)) "f").2.1 rfl

/-- C2 counterexample: the claim says no exception ever propagates, including
when reading is denied by permissions or the path does not exist — but a
permission error and a missing file both propagate out of
`count_lines_or_get_type`. -/
theorem c2_counterexample :
    count_lines_or_get_type gtWit (some (.file (.unreadable "Permission denied"))) "f"
      = .error (.osError "Permission denied")
    ∧ count_lines_or_get_type gtWit none "g" = .error .fileNotFoundError :=
  ⟨rfl, rfl⟩

/-! ### Claim C6: what the line count counts -/

/-- Closed form of Python line iteration: the number of newline characters,
plus one more when the content is nonempty and does not end with a newline
(the final unterminated chunk is still yielded as a line). -/
theorem pyLineCount_closed_form (l : List Char) :
    pyLineCount l = l.count '\n' + (if l ≠ [] ∧ l.getLast? ≠ some '\n' then 1 else 0) := by
  induction l with
  | nil => simp [pyLineCount]
  | cons c rest ih =>
    cases rest with
    | nil =>
      rw [pyLineCount]
      by_cases h : c = '\n' <;> simp [h, List.count_cons]
    | cons c2 rest2 =>
      rw [pyLineCount, ih]
      simp only [List.count_cons, List.getLast?_cons_cons, ne_eq, List.cons_ne_nil,
        not_false_iff, true_and]
      by_cases h : c = '\n' <;> by_cases h2 : (c2 :: rest2).getLast? = some '\n' <;>
        simp [h, h2] <;> omega

/-- C6 (amended): on a successfully decoded text file the returned integer is
the Python line-iteration count: the number of newline-terminated records,
plus one for a final record that lacks a terminating newline.  (The original
claim, that only terminated records are counted, is refuted by
`c6_counterexample`.) -/
theorem c6_text_file_count (gt : String → Option String) (fp : String) (s : String) :
    count_lines_or_get_type gt (some (.file (.text s))) fp
      = .ok (.inl (s.toList.count '\n'
          + (if s.toList ≠ [] ∧ s.toList.getLast? ≠ some '\n' then 1 else 0))) := by
  have h : count_lines_or_get_type gt (some (.file (.text s))) fp
      = .ok (.inl (pyLineCount s.toList)) := rfl
  rw [h, pyLineCount_closed_form]

/-- C6 counterexample: a file holding the single byte `a` has zero
line-terminated records but is counted as one line, so a final line lacking
a newline does contribute to the count. -/
theorem c6_counterexample :
    count_lines_or_get_type gtWit (some (.file (.text "a"))) "f" = .ok (.inl 1)
    ∧ "a".toList.count '\n' = 0 :=
  ⟨rfl, rfl⟩

/-! ### Claim C8: conflicting mode flags -/

/-- C8: whenever a folder path is supplied together with both `--structure`
and `--structure-all`, the program prints exactly the conflict error and
exits with code 1; the result is the same for every filesystem, so no
traversal takes place. -/
theorem c8_conflicting_flags (gt : String → Option String) (ap : String → String)
    (helpText : List String) (tree : FSTree) (fp : String) :
    main_dispatch gt ap helpText tree
      { folderPath := some fp, structureFlag := true, structureAllFlag := true,
        helpOnly := false }
      = .ok (["Error: Cannot use --structure and --structure-all at the same time."], 1) :=
  rfl

/-! ### Order facts about the name comparison -/

theorem strLt_irrefl : ∀ x : List Char, strLt x x = false := by
  intro x
  induction x with
  | nil => rfl
  | cons a as ih => simp [strLt, ih]

theorem strLt_trans : ∀ x y z : List Char,
    strLt x y = true → strLt y z = true → strLt x z = true := by
  intro x
  induction x with
  | nil =>
    intro y z hxy hyz
    cases z with
    | nil =>
      cases y with
      | nil => simp [strLt] at hxy
      | cons b bs => simp [strLt] at hyz
    | cons c cs => simp [strLt]
  | cons a as ih =>
    intro y z hxy hyz
    cases y with
    | nil => simp [strLt] at hxy
    | cons b bs =>
      cases z with
      | nil => simp [strLt] at hyz
      | cons c cs =>
        rw [strLt] at hxy hyz ⊢
        rcases lt_trichotomy a b with hab | hab | hab
        · rcases lt_trichotomy b c with hbc | hbc | hbc
          · simp [lt_trans hab hbc]
          · subst hbc; simp [hab]
          · rw [if_neg (lt_asymm hbc), if_pos hbc] at hyz
            exact absurd hyz (by simp)
        · subst hab
          rw [if_neg (lt_irrefl a), if_neg (lt_irrefl a)] at hxy
          rcases lt_trichotomy a c with hac | hac | hac
          · simp [hac]
          · subst hac
            simp only [lt_irrefl, if_false]
            rw [if_neg (lt_irrefl a), if_neg (lt_irrefl a)] at hyz
            exact ih bs cs hxy hyz
          · rw [if_neg (lt_asymm hac), if_pos hac] at hyz
            exact absurd hyz (by simp)
        · rw [if_neg (lt_asymm hab), if_pos hab] at hxy
          exact absurd hxy (by simp)

theorem strLt_asymm {x y : List Char} (h : strLt x y = true) : strLt y x = false := by
  by_contra hc
  have hyx : strLt y x = true := by
    cases hxy : strLt y x
    · exact absurd hxy hc
    · rfl
  have := strLt_trans x y x h hyx
  rw [strLt_irrefl] at this
  exact absurd this (by simp)

theorem strLt_trichotomy : ∀ x y : List Char,
    strLt x y = true ∨ x = y ∨ strLt y x = true := by
  intro x
  induction x with
  | nil =>
    intro y
    cases y with
    | nil => right; left; rfl
    | cons b bs => left; simp [strLt]
  | cons a as ih =>
    intro y
    cases y with
    | nil => right; right; simp [strLt]
    | cons b bs =>
      rcases lt_trichotomy a b with hab | hab | hab
      · left; simp [strLt, hab]
      · subst hab
        rcases ih bs with h | h | h
        · left; simp [strLt, lt_irrefl, h]
        · right; left; rw [h]
        · right; right; simp [strLt, lt_irrefl, h]
      · right; right; simp [strLt, hab]

instance : IsTotal (String × FSTree) childLe where
  total a b := by
    rcases strLt_trichotomy a.1.toList b.1.toList with h | h | h
    · left
      exact strLt_asymm h
    · left
      rw [childLe, h, strLt_irrefl]
    · right
      exact strLt_asymm h

instance : IsTrans (String × FSTree) childLe where
  trans a b c hab hbc := by
    rw [childLe] at hab hbc ⊢
    by_contra hc
    have hca : strLt c.1.toList a.1.toList = true := by
      cases h : strLt c.1.toList a.1.toList
      · exact absurd h hc
      · rfl
    rcases strLt_trichotomy b.1.toList c.1.toList with h | h | h
    · rw [strLt_trans _ _ _ h hca] at hab
      exact absurd hab (by simp)
    · rw [← h] at hca
      rw [hca] at hab
      exact absurd hab (by simp)
    · rw [h] at hbc
      exact absurd hbc (by simp)

/-! ### Filtering commutes with the stable sort -/

theorem filter_orderedInsert_neg {α : Type} (r : α → α → Prop) [DecidableRel r]
    (p : α → Bool) (x : α) (hx : p x = false) :
    ∀ L : List α, (L.orderedInsert r x).filter p = L.filter p := by
  intro L
  induction L with
  | nil => simp [List.orderedInsert, hx]
  | cons y ys ih =>
    rw [List.orderedInsert]
    split
    · simp [List.filter_cons, hx]
    · rw [List.filter_cons, List.filter_cons]
      split
      · rw [ih]
      · exact ih

theorem orderedInsert_eq_cons {α : Type} (r : α → α → Prop) [DecidableRel r]
    (x : α) (l : List α) (h : ∀ z ∈ l, r x z) : l.orderedInsert r x = x :: l := by
  cases l with
  | nil => rfl
  | cons z zs => rw [List.orderedInsert, if_pos (h z (by simp))]

theorem filter_orderedInsert_pos {α : Type} (r : α → α → Prop) [DecidableRel r]
    [IsTrans α r] (p : α → Bool) (x : α) (hx : p x = true) :
    ∀ L : List α, L.Sorted r →
      (L.orderedInsert r x).filter p = (L.filter p).orderedInsert r x := by
  intro L
  induction L with
  | nil => simp [List.orderedInsert, hx]
  | cons y ys ih =>
    intro hs
    have hys : ys.Sorted r := (List.sorted_cons.mp hs).2
    have hall : ∀ z ∈ ys, r y z := (List.sorted_cons.mp hs).1
    rw [List.orderedInsert]
    by_cases hr : r x y
    · rw [if_pos hr, List.filter_cons, List.filter_cons, hx]
      simp only [if_true]
      cases hpy : p y
      · simp only [Bool.false_eq_true, if_false]
        rw [orderedInsert_eq_cons]
        intro z hz
        have hzys : z ∈ ys := List.mem_of_mem_filter hz
        exact Trans.trans hr (hall z hzys)
      · simp only [if_true]
        rw [List.orderedInsert, if_pos hr]
    · rw [if_neg hr, List.filter_cons, List.filter_cons]
      cases hpy : p y
      · simp only [Bool.false_eq_true, if_false]
        exact ih hys
      · simp only [if_true]
        rw [ih hys, List.orderedInsert, if_neg hr]

theorem filter_insertionSort {α : Type} (r : α → α → Prop) [DecidableRel r]
    [IsTotal α r] [IsTrans α r] (p : α → Bool) (l : List α) :
    (l.insertionSort r).filter p = (l.filter p).insertionSort r := by
  induction l with
  | nil => simp
  | cons x xs ih =>
    rw [List.insertionSort, List.filter_cons]
    cases hx : p x
    · simp only [Bool.false_eq_true, if_false]
      rw [filter_orderedInsert_neg r p x hx, ih]
    · simp only [if_true]
      rw [filter_orderedInsert_pos r p x hx _ (List.sorted_insertionSort r xs), ih,
        List.insertionSort]

/-! ### Ignored entries are invisible -/

/-- Removing an ignored child from a directory listing does not change the
rendered tree: the renderer filters it out before printing or recursing, so
its name is never printed and its subtree (`node` is arbitrary) is never
entered. -/
theorem display_drop_ignored (gt : String → Option String) (ap : String → String)
    (ips : Option (List Regex)) (slc : Bool) (fp pfx name : String) (node : FSTree)
    (pre post : List (String × FSTree))
    (h : should_ignore ap name (pjoin fp name) (ips.getD []) blacklist = true) :
    display_tree_structure gt ap ips slc (.dir (pre ++ (name, node) :: post)) fp pfx
      = display_tree_structure gt ap ips slc (.dir (pre ++ post)) fp pfx := by
  rw [display_tree_structure, display_tree_structure]
  have hL :
      ((sortChildren (pre ++ (name, node) :: post)).filter fun item =>
        !should_ignore ap item.1 (pjoin fp item.1) (ips.getD []) blacklist)
      = ((sortChildren (pre ++ post)).filter fun item =>
        !should_ignore ap item.1 (pjoin fp item.1) (ips.getD []) blacklist) := by
    rw [sortChildren, sortChildren, filter_insertionSort, filter_insertionSort]
    congr 1
    simp [List.filter_append, List.filter_cons, h]
  rw [hL]

/-- Removing an ignored child from a directory listing does not change the
dumped contents: if it is a directory it is pruned from `dirs` before the
walk descends, and if it is a file it is skipped; either way nothing of it
(`node` is arbitrary) is printed. -/
theorem walk_drop_ignored (ap : String → String) (ips : Option (List Regex))
    (root name : String) (node : FSTree) (pre post : List (String × FSTree))
    (h : should_ignore ap name (pjoin root name) (ips.getD []) blacklist = true) :
    print_file_contents ap ips (.dir (pre ++ (name, node) :: post)) root
      = print_file_contents ap ips (.dir (pre ++ post)) root := by
  rw [print_file_contents, print_file_contents]
  have hds :
      (((pre ++ (name, node) :: post).filter fun c => isDirNode c.2).filter fun c =>
        !should_ignore ap c.1 (pjoin root c.1) (ips.getD []) blacklist)
      = (((pre ++ post).filter fun c => isDirNode c.2).filter fun c =>
        !should_ignore ap c.1 (pjoin root c.1) (ips.getD []) blacklist) := by
    by_cases hd : isDirNode node <;>
      simp [List.filter_append, List.filter_cons, hd, h]
  have hfls :
      (((pre ++ (name, node) :: post).filter fun c => !isDirNode c.2).flatMap
        (dumpEntry ap ips root))
      = (((pre ++ post).filter fun c => !isDirNode c.2).flatMap
        (dumpEntry ap ips root)) := by
    by_cases hd : isDirNode node
    · simp [List.filter_append, List.filter_cons, hd]
    · simp only [List.filter_append, List.filter_cons, Prod.fst, Prod.snd, hd,
        Bool.not_false, if_true, List.flatMap_append, List.flatMap_cons]
      have hde : dumpEntry ap ips root (name, node) = [] := by
        rw [dumpEntry]
        simp [h]
      rw [hde]
      simp
  rw [hds, hfls]

/-- C3: an entry that `should_ignore` accepts (by ignore pattern or by
blacklist) never appears in either output: deleting it — whatever its
subtree holds — changes neither the rendered tree nor the dumped contents,
and in particular neither traversal descends into it. -/
theorem c3_ignored_never_output (gt : String → Option String) (ap : String → String)
    (ips : Option (List Regex)) (slc : Bool) (fp pfx name : String) (node : FSTree)
    (pre post : List (String × FSTree))
    (h : should_ignore ap name (pjoin fp name) (ips.getD []) blacklist = true) :
    display_tree_structure gt ap ips slc (.dir (pre ++ (name, node) :: post)) fp pfx
      = display_tree_structure gt ap ips slc (.dir (pre ++ post)) fp pfx
    ∧ print_file_contents ap ips (.dir (pre ++ (name, node) :: post)) fp
      = print_file_contents ap ips (.dir (pre ++ post)) fp :=
  ⟨display_drop_ignored gt ap ips slc fp pfx name node pre post h,
   walk_drop_ignored ap ips fp name node pre post h⟩

/-- C3 witness: a `.git` directory with a file inside is invisible to both
renderings of a small concrete tree. -/
theorem c3_witness :
    display_tree_structure gtWit apWit (some ignore_patterns) true
        (.dir [(".git", .dir [("secret", .file (.text "s"))]),
               ("a.txt", .file (.text "x\n"))]) "r" ""
      = display_tree_structure gtWit apWit (some ignore_patterns) true
        (.dir [("a.txt", .file (.text "x\n"))]) "r" ""
    ∧ print_file_contents apWit (some ignore_patterns)
        (.dir [(".git", .dir [("secret", .file (.text "s"))]),
               ("a.txt", .file (.text "x\n"))]) "r"
      = print_file_contents apWit (some ignore_patterns)
        (.dir [("a.txt", .file (.text "x\n"))]) "r" :=
  c3_ignored_never_output gtWit apWit (some ignore_patterns) true "r" "" ".git"
    (.dir [("secret", .file (.text "s"))]) []
    [("a.txt", .file (.text "x\n"))] (by decide)

/-! ### Claim C5: `--structure-all` skips patterns, keeps blacklist -/

/-- C5: in `--structure-all` mode the renderer is called with no ignore
patterns, so the filter runs with the empty pattern list; with the empty
pattern list `should_ignore` degenerates to exactly the hardcoded blacklist
rule (basename equal to a blacklist entry, or a blacklisted absolute path as
prefix of the entry's absolute path); the blacklist rule forces exclusion in
every mode (any pattern list); and a blacklisted child is dropped from the
unfiltered tree exactly as in the other modes. -/
theorem c5_structure_all_blacklist :
    (∀ (ap : String → String) (name path : String),
      should_ignore ap name path [] blacklist = blacklistHit ap path blacklist)
    ∧ (∀ (ap : String → String) (name path : String) (pats : List Regex),
      blacklistHit ap path blacklist = true →
      should_ignore ap name path pats blacklist = true)
    ∧ (∀ (gt : String → Option String) (ap : String → String) (slc : Bool)
        (fp pfx name : String) (node : FSTree) (pre post : List (String × FSTree)),
      blacklistHit ap (pjoin fp name) blacklist = true →
      display_tree_structure gt ap none slc (.dir (pre ++ (name, node) :: post)) fp pfx
        = display_tree_structure gt ap none slc (.dir (pre ++ post)) fp pfx) := by
  have hempty : ∀ (ap : String → String) (name path : String),
      should_ignore ap name path [] blacklist = blacklistHit ap path blacklist := by
    intro ap name path
    rw [should_ignore, blacklistHit]
    simp only [List.any_nil, Bool.false_eq_true, if_false]
    cases h : blacklist.any fun b => basename (ap path) == b || strPrefix (ap b) (ap path) <;>
      simp [h]
  refine ⟨hempty, ?_, ?_⟩
  · intro ap name path pats h
    rw [should_ignore]
    split
    · rfl
    · rw [blacklistHit] at h
      simp [h]
  · intro gt ap slc fp pfx name node pre post h
    apply display_drop_ignored
    rw [Option.getD_none, hempty]
    exact h

/-- C5 witness: a `node_modules` child is excluded from the unfiltered
(`--structure-all`) tree of a concrete listing, and the empty-pattern filter
agrees with the blacklist rule on it. -/
theorem c5_witness :
    should_ignore apWit "node_modules" "r/node_modules" [] blacklist = true
    ∧ display_tree_structure gtWit apWit none true
        (.dir [("node_modules", .dir [("m.js", .file (.text "j"))]),
               ("a.txt", .file (.text "x\n"))]) "r" ""
      = display_tree_structure gtWit apWit none true
        (.dir [("a.txt", .file (.text "x\n"))]) "r" "" := by
  have hbl : blacklistHit apWit "r/node_modules" blacklist = true := by decide
  constructor
  · rw [c5_structure_all_blacklist.1 apWit "node_modules" "r/node_modules"]
    exact hbl
  · exact c5_structure_all_blacklist.2.2 gtWit apWit true "r" "" "node_modules"
      (.dir [("m.js", .file (.text "j"))]) [] [("a.txt", .file (.text "x\n"))]
      (by decide)

/-! ### Totality of the dump traversal -/

theorem walk_total_aux : ∀ n : Nat,
    (∀ (ap : String → String) (ips : Option (List Regex)) (t : FSTree) (root : String),
      sizeOf t ≤ n → ∃ out, print_file_contents ap ips t root = .ok out)
    ∧ (∀ (ap : String → String) (ips : Option (List Regex))
        (l : List (String × FSTree)) (root : String),
      sizeOf l ≤ n → ∃ out, walkDirs ap ips l root = .ok out) := by
  intro n
  induction n with
  | zero =>
    constructor
    · intro ap ips t root ht
      exfalso
      cases t <;> simp at ht <;> omega
    · intro ap ips l root hl
      exfalso
      cases l <;> simp at hl <;> omega
  | succ n ih =>
    constructor
    · intro ap ips t root ht
      cases t with
      | file d => exact ⟨[], by rw [print_file_contents]⟩
      | dir children =>
        simp only [print_file_contents]
        have hsz : sizeOf (((children.filter fun c => isDirNode c.2).filter fun c =>
            !should_ignore ap c.1 (pjoin root c.1) (ips.getD []) blacklist)) ≤ n := by
          have h1 := sizeOf_filter_le
            (fun c : String × FSTree =>
              !should_ignore ap c.1 (pjoin root c.1) (ips.getD []) blacklist)
            (children.filter fun c => isDirNode c.2)
          have h2 := sizeOf_filter_le (fun c : String × FSTree => isDirNode c.2) children
          simp only [FSTree.dir.sizeOf_spec] at ht
          omega
        obtain ⟨out, hw⟩ := ih.2 ap ips _ root hsz
        rw [hw]
        exact ⟨_, rfl⟩
    · intro ap ips l root hl
      cases l with
      | nil => exact ⟨[], by rw [walkDirs]⟩
      | cons c rest =>
        obtain ⟨name, sub⟩ := c
        simp only [List.cons.sizeOf_spec, Prod.mk.sizeOf_spec] at hl
        obtain ⟨o1, h1⟩ := ih.1 ap ips sub (pjoin root name) (by omega)
        obtain ⟨o2, h2⟩ := ih.2 ap ips rest root (by omega)
        rw [walkDirs, h1, h2]
        exact ⟨_, rfl⟩

/-- The dump traversal always terminates with an output list. -/
theorem print_file_contents_total (ap : String → String) (ips : Option (List Regex))
    (t : FSTree) (root : String) :
    ∃ out, print_file_contents ap ips t root = .ok out :=
  (walk_total_aux (sizeOf t)).1 ap ips t root le_rfl

/-- Descent into a directory list always terminates with an output list. -/
theorem walkDirs_total (ap : String → String) (ips : Option (List Regex))
    (l : List (String × FSTree)) (root : String) :
    ∃ out, walkDirs ap ips l root = .ok out :=
  (walk_total_aux (sizeOf l)).2 ap ips l root le_rfl

/-! ### Claim C10 -/

/-- C10: `print_file_contents` never raises — the per-file catch-all handler
absorbs every read failure, so the dump runs to completion for every root and
every tree — while `display_tree_structure` is not so protected: a file whose
read raises an uncaught exception (here a permission error reached through
`count_lines_or_get_type`) makes the renderer propagate it. -/
theorem c10_dump_never_raises :
    (∀ (ap : String → String) (ips : Option (List Regex)) (t : FSTree) (root : String),
      ∃ out, print_file_contents ap ips t root = .ok out)
    ∧ display_tree_structure gtWit apWit (some ignore_patterns) true
        (.dir [("locked.txt", .file (.unreadable "Permission denied"))]) "r" ""
      = .error (.osError "Permission denied") := by
  constructor
  · intro ap ips t root
    exact print_file_contents_total ap ips t root
  · have h1 : should_ignore apWit "locked.txt" (pjoin "r" "locked.txt")
        ignore_patterns blacklist = false := by decide
    have hc : count_lines_or_get_type gtWit
        (some (.file (.unreadable "Permission denied"))) (pjoin "r" "locked.txt")
        = .error (.osError "Permission denied") := rfl
    rw [display_tree_structure]
    have hs : ((sortChildren [("locked.txt", FSTree.file (.unreadable "Permission denied"))]).filter
        fun item => !should_ignore apWit item.1 (pjoin "r" item.1)
          ((some ignore_patterns).getD []) blacklist)
        = [("locked.txt", FSTree.file (.unreadable "Permission denied"))] := by
      rw [sortChildren, List.insertionSort, List.insertionSort, List.orderedInsert]
      simp [List.filter_cons, h1]
    rw [hs, displayLoop]
    simp [hc]

/-! ### Claim C4: per-file read errors during dumping -/

/-- C4: during content dumping, a file whose read fails (with any error) is
reported inline as the single line `Error reading path: message`, and the
traversal continues — every later non-ignored readable file in the listing is
still dumped. -/
theorem c4_read_error_isolated (ap : String → String) (ips : Option (List Regex))
    (root : String) (pre post : List (String × FSTree))
    (bname msg gname content : String)
    (hb : should_ignore ap bname (pjoin root bname) (ips.getD []) blacklist = false)
    (hg : (gname, FSTree.file (.text content)) ∈ post)
    (hgn : should_ignore ap gname (pjoin root gname) (ips.getD []) blacklist = false) :
    ∃ out, print_file_contents ap ips
        (.dir (pre ++ (bname, .file (.unreadable msg)) :: post)) root = .ok out
      ∧ ("Error reading " ++ pjoin root bname ++ ": " ++ msg) ∈ out
      ∧ (pjoin root gname ++ ":\n" ++ content) ∈ out := by
  simp only [print_file_contents]
  split
  · rename_i e heq
    obtain ⟨out, hok⟩ := walkDirs_total ap ips _ root
    rw [hok] at heq
    exact absurd heq (by simp)
  · rename_i rest heq
    refine ⟨_, rfl, ?_, ?_⟩
    · apply List.mem_append_left
      rw [List.mem_flatMap]
      refine ⟨(bname, .file (.unreadable msg)), ?_, ?_⟩
      · rw [List.mem_filter]
        constructor
        · simp
        · rfl
      · rw [dumpEntry]
        simp only [hb, Bool.false_eq_true, if_false]
        have : pyOpenNode (FSTree.file (.unreadable msg)) = .error (.osError msg) := rfl
        rw [this]
        simp [errMsg]
    · apply List.mem_append_left
      rw [List.mem_flatMap]
      refine ⟨(gname, .file (.text content)), ?_, ?_⟩
      · rw [List.mem_filter]
        constructor
        · simp only [List.mem_append, List.mem_cons]
          right; right
          exact hg
        · rfl
      · rw [dumpEntry]
        simp only [hgn, Bool.false_eq_true, if_false]
        have : pyOpenNode (FSTree.file (.text content)) = .ok content := rfl
        rw [this]
        simp

/-- C4 witness: a concrete unreadable file is reported inline and the
following file is still dumped. -/
theorem c4_witness :
    ∃ out, print_file_contents apWit (some ignore_patterns)
        (.dir [("bad.txt", .file (.unreadable "boom")),
               ("good.txt", .file (.text "hello"))]) "r" = .ok out
      ∧ ("Error reading " ++ pjoin "r" "bad.txt" ++ ": " ++ "boom") ∈ out
      ∧ (pjoin "r" "good.txt" ++ ":\n" ++ "hello") ∈ out :=
  c4_read_error_isolated apWit (some ignore_patterns) "r" []
    [("good.txt", .file (.text "hello"))] "bad.txt" "boom" "good.txt" "hello"
    (by decide) (by simp) (by decide)

/-! ### Claim C7: the rendered tree does not depend on the listing order -/

/-- Strict name order on children. -/
def childLt (a b : String × FSTree) : Prop := strLt a.1.toList b.1.toList = true

instance : IsAntisymm (String × FSTree) childLt where
  antisymm a b hab hba := by
    rw [childLt] at hab hba
    simp only [String.toList] at hab hba
    rw [strLt_asymm hab] at hba
    exact absurd hba (by simp)

theorem sorted_childLt_of_nodup {l : List (String × FSTree)}
    (hs : l.Sorted childLe) (hnd : (l.map Prod.fst).Nodup) : l.Sorted childLt := by
  have hne : l.Pairwise (fun a b : String × FSTree => a.1 ≠ b.1) :=
    List.pairwise_map.mp hnd
  refine List.Pairwise.imp ?_ (hs.and hne)
  intro a b hab
  obtain ⟨h1, h2⟩ := hab
  rcases strLt_trichotomy a.1.toList b.1.toList with h | h | h
  · exact h
  · exfalso
    apply h2
    apply String.ext
    exact h
  · exfalso
    rw [childLe, h] at h1
    exact absurd h1 (by simp)

/-- Two listing orders of the same directory (same children, possibly
permuted, with pairwise-distinct names) sort to the same list. -/
theorem sortChildren_perm_eq {l1 l2 : List (String × FSTree)} (hperm : l1.Perm l2)
    (hnd : (l2.map Prod.fst).Nodup) : sortChildren l1 = sortChildren l2 := by
  have hnd1 : (l1.map Prod.fst).Nodup := ((hperm.map Prod.fst).nodup_iff).mpr hnd
  have hs1 : (sortChildren l1).Sorted childLt := by
    apply sorted_childLt_of_nodup (List.sorted_insertionSort childLe l1)
    exact (((List.perm_insertionSort childLe l1).map Prod.fst).nodup_iff).mpr hnd1
  have hs2 : (sortChildren l2).Sorted childLt := by
    apply sorted_childLt_of_nodup (List.sorted_insertionSort childLe l2)
    exact (((List.perm_insertionSort childLe l2).map Prod.fst).nodup_iff).mpr hnd
  exact List.eq_of_perm_of_sorted
    ((List.perm_insertionSort childLe l1).trans
      (hperm.trans (List.perm_insertionSort childLe l2).symm)) hs1 hs2

/-- C7: the renderer is deterministic because it sorts the directory listing
before processing: for a directory whose children carry pairwise-distinct
names, any two `os.listdir` orders of the same children produce the same
printed lines and the same returned total, so repeated runs against an
unchanged filesystem are byte-identical. -/
theorem c7_render_deterministic (gt : String → Option String) (ap : String → String)
    (ips : Option (List Regex)) (slc : Bool) (fp pfx : String)
    (l1 l2 : List (String × FSTree)) (hperm : l1.Perm l2)
    (hnd : (l2.map Prod.fst).Nodup) :
    display_tree_structure gt ap ips slc (.dir l1) fp pfx
      = display_tree_structure gt ap ips slc (.dir l2) fp pfx := by
  rw [display_tree_structure, display_tree_structure, sortChildren_perm_eq hperm hnd]

/-- C7 witness: the two orders of a concrete two-entry directory render
identically. -/
theorem c7_witness :
    display_tree_structure gtWit apWit (some ignore_patterns) true
      (.dir [("b.txt", .file (.text "x\ny\n")), ("a.txt", .file (.text "z"))]) "r" ""
    = display_tree_structure gtWit apWit (some ignore_patterns) true
      (.dir [("a.txt", .file (.text "z")), ("b.txt", .file (.text "x\ny\n"))]) "r" "" :=
  c7_render_deterministic gtWit apWit (some ignore_patterns) true "r" ""
    [("b.txt", .file (.text "x\ny\n")), ("a.txt", .file (.text "z"))]
    [("a.txt", .file (.text "z")), ("b.txt", .file (.text "x\ny\n"))]
    (List.Perm.swap ("a.txt", FSTree.file (FileData.text "z"))
      ("b.txt", FSTree.file (FileData.text "x\ny\n")) [])
    (by decide)

/-! ### Claim C1: the returned total is the sum of the file line counts -/

/-- The spec-side contribution of one (already non-ignored) child: for a file,
the integer returned by `count_lines_or_get_type` when it is an integer (0
for a type string or a propagating error); for a directory, the reference sum
of its subtree. -/
def entryLines (gt : String → Option String) (ap : String → String) (ips : List Regex)
    (fp : String) (c : String × FSTree) : Nat :=
  match c.2 with
  | .file d =>
    match count_lines_or_get_type gt (some (.file d)) (pjoin fp c.1) with
    | .ok (.inl n) => n
    | _ => 0
  | .dir sub => specSumLines gt ap ips (.dir sub) (pjoin fp c.1)

theorem specSumChildren_eq_map_sum (gt : String → Option String) (ap : String → String)
    (ips : List Regex) (l : List (String × FSTree)) (fp : String) :
    specSumChildren gt ap ips l fp
      = (l.map fun c => if should_ignore ap c.1 (pjoin fp c.1) ips blacklist then 0
          else entryLines gt ap ips fp c).sum := by
  induction l with
  | nil => rw [specSumChildren]; rfl
  | cons c rest ih =>
    obtain ⟨name, node⟩ := c
    cases node with
    | file d =>
      rw [specSumChildren, ih]
      rfl
    | dir sub =>
      rw [specSumChildren, ih]
      rfl

theorem filter_map_sum {α : Type} (p : α → Bool) (f : α → Nat) (l : List α) :
    ((l.filter p).map f).sum = (l.map fun c => if p c then f c else 0).sum := by
  induction l with
  | nil => rfl
  | cons x xs ih =>
    rw [List.filter_cons]
    cases hx : p x <;> simp [hx, ih]

theorem display_total_aux : ∀ n : Nat,
    (∀ (gt : String → Option String) (ap : String → String) (ips : Option (List Regex))
       (t : FSTree) (fp pfx : String) (out : List String) (total : Nat),
      sizeOf t ≤ n →
      display_tree_structure gt ap ips true t fp pfx = .ok (out, total) →
      total = specSumLines gt ap (ips.getD []) t fp)
    ∧ (∀ (gt : String → Option String) (ap : String → String) (ips : Option (List Regex))
       (l : List (String × FSTree)) (fp pfx : String) (out : List String) (total : Nat),
      sizeOf l ≤ n →
      displayLoop gt ap ips true l fp pfx = .ok (out, total) →
      total = (l.map (entryLines gt ap (ips.getD []) fp)).sum) := by
  intro n
  induction n with
  | zero =>
    constructor
    · intro gt ap ips t fp pfx out total ht h
      exfalso
      cases t <;> simp at ht <;> omega
    · intro gt ap ips l fp pfx out total hl h
      exfalso
      cases l <;> simp at hl <;> omega
  | succ n ih =>
    constructor
    · intro gt ap ips t fp pfx out total ht h
      cases t with
      | file d =>
        rw [display_tree_structure] at h
        simp only [Except.ok.injEq, Prod.mk.injEq] at h
        rw [specSumLines, ← h.2]
      | dir children =>
        rw [display_tree_structure] at h
        have hsz : sizeOf ((sortChildren children).filter fun item =>
            !should_ignore ap item.1 (pjoin fp item.1) (ips.getD []) blacklist) ≤ n := by
          have h1 := sizeOf_filter_le
            (fun item : String × FSTree =>
              !should_ignore ap item.1 (pjoin fp item.1) (ips.getD []) blacklist)
            (sortChildren children)
          have h2 : sizeOf (sortChildren children) = sizeOf children :=
            (List.perm_insertionSort childLe children).sizeOf_eq_sizeOf
          simp only [FSTree.dir.sizeOf_spec] at ht
          omega
        have htot := ih.2 gt ap ips _ fp pfx out total hsz h
        rw [htot, specSumLines, specSumChildren_eq_map_sum]
        have hperm : (((sortChildren children).filter fun item =>
            !should_ignore ap item.1 (pjoin fp item.1) (ips.getD []) blacklist).map
              (entryLines gt ap (ips.getD []) fp)).Perm
            ((children.filter fun item =>
              !should_ignore ap item.1 (pjoin fp item.1) (ips.getD []) blacklist).map
              (entryLines gt ap (ips.getD []) fp)) :=
          (((List.perm_insertionSort childLe children).filter _).map _)
        rw [hperm.sum_eq, filter_map_sum]
        congr 1
        apply List.map_congr_left
        intro c _
        cases hc : should_ignore ap c.1 (pjoin fp c.1) (ips.getD []) blacklist <;>
          simp [hc]
    · intro gt ap ips l fp pfx out total hl h
      cases l with
      | nil =>
        rw [displayLoop] at h
        simp only [Except.ok.injEq, Prod.mk.injEq] at h
        simp [← h.2]
      | cons c rest =>
        obtain ⟨name, node⟩ := c
        have hsub : sizeOf node ≤ n ∧ sizeOf rest ≤ n := by
          simp only [List.cons.sizeOf_spec, Prod.mk.sizeOf_spec] at hl
          omega
        cases node with
        | dir sub =>
          simp only [displayLoop] at h
          split at h
          · exact absurd h (by simp)
          · rename_i ls nsub heq
            split at h
            · exact absurd h (by simp)
            · rename_i ls2 n2 heq2
              simp only [Except.ok.injEq, Prod.mk.injEq] at h
              have e1 := ih.1 gt ap ips (.dir sub) (pjoin fp name) _ ls nsub hsub.1 heq
              have e2 := ih.2 gt ap ips rest fp pfx ls2 n2 hsub.2 heq2
              rw [List.map_cons, List.sum_cons, ← h.2, e1, e2]
              rfl
        | file d =>
          simp only [displayLoop, if_true] at h
          split at h
          · exact absurd h (by simp)
          · rename_i r heq
            split at h
            · exact absurd h (by simp)
            · rename_i ls2 n2 heq2
              have e2 := ih.2 gt ap ips rest fp pfx ls2 n2 hsub.2 heq2
              rw [List.map_cons, List.sum_cons]
              cases r with
              | inl m =>
                simp only [Except.ok.injEq, Prod.mk.injEq] at h
                have he : entryLines gt ap (ips.getD []) fp (name, FSTree.file d) = m := by
                  simp only [entryLines]
                  rw [heq]
                rw [← h.2, e2, he]
              | inr t =>
                simp only [Except.ok.injEq, Prod.mk.injEq] at h
                have he : entryLines gt ap (ips.getD []) fp (name, FSTree.file d) = 0 := by
                  simp only [entryLines]
                  rw [heq]
                rw [← h.2, e2, he]
                omega

/-- C1: whenever `display_tree_structure` with line counts shown returns
(without a propagating exception), the returned integer equals the reference
sum `specSumLines` — the sum over every non-ignored, non-blacklisted file of
the subtree of its integer line count, type-string results contributing 0;
and for an empty directory, or a path that is not a directory, the renderer
prints nothing and returns total 0. -/
theorem c1_structure_total_is_spec_sum :
    (∀ (gt : String → Option String) (ap : String → String) (ips : Option (List Regex))
       (tree : FSTree) (fp pfx : String) (out : List String) (total : Nat),
      display_tree_structure gt ap ips true tree fp pfx = .ok (out, total) →
      total = specSumLines gt ap (ips.getD []) tree fp)
    ∧ (∀ (gt : String → Option String) (ap : String → String) (ips : Option (List Regex))
       (slc : Bool) (fp pfx : String),
      display_tree_structure gt ap ips slc (.dir []) fp pfx = .ok ([], 0))
    ∧ (∀ (gt : String → Option String) (ap : String → String) (ips : Option (List Regex))
       (slc : Bool) (d : FileData) (fp pfx : String),
      display_tree_structure gt ap ips slc (.file d) fp pfx = .ok ([], 0)) := by
  refine ⟨?_, ?_, ?_⟩
  · intro gt ap ips tree fp pfx out total h
    exact (display_total_aux (sizeOf tree)).1 gt ap ips tree fp pfx out total le_rfl h
  · intro gt ap ips slc fp pfx
    rw [display_tree_structure]
    have he : ((sortChildren ([] : List (String × FSTree))).filter fun item =>
        !should_ignore ap item.1 (pjoin fp item.1) (ips.getD []) blacklist) = [] := rfl
    rw [he, displayLoop]
  · intro gt ap ips slc d fp pfx
    rw [display_tree_structure]

/-- C1 witness: on a concrete one-file tree the renderer returns total 1, and
the reference sum agrees. -/
theorem c1_witness :
    display_tree_structure gtWit apWit (some ignore_patterns) true
        (.dir [("a.txt", .file (.text "z"))]) "r" "" = .ok (["└── a.txt (1 lines)"], 1)
    ∧ specSumLines gtWit apWit ignore_patterns
        (.dir [("a.txt", .file (.text "z"))]) "r" = 1 := by
  have h1 : should_ignore apWit "a.txt" (pjoin "r" "a.txt") ignore_patterns blacklist
      = false := by decide
  have hc : count_lines_or_get_type gtWit (some (.file (.text "z"))) (pjoin "r" "a.txt")
      = .ok (.inl 1) := rfl
  have hd : display_tree_structure gtWit apWit (some ignore_patterns) true
      (.dir [("a.txt", .file (.text "z"))]) "r" "" = .ok (["└── a.txt (1 lines)"], 1) := by
    rw [display_tree_structure]
    have hs : ((sortChildren [("a.txt", FSTree.file (FileData.text "z"))]).filter fun item =>
        !should_ignore apWit item.1 (pjoin "r" item.1)
          ((some ignore_patterns).getD []) blacklist)
        = [("a.txt", FSTree.file (FileData.text "z"))] := by
      rw [sortChildren, List.insertionSort, List.insertionSort, List.orderedInsert]
      simp [List.filter_cons, h1]
    rw [hs]
    simp only [displayLoop, hc, if_true]
    rfl
  refine ⟨hd, ?_⟩
  have hspec := c1_structure_total_is_spec_sum.1 gtWit apWit (some ignore_patterns)
    (.dir [("a.txt", .file (.text "z"))]) "r" "" (["└── a.txt (1 lines)"]) 1 hd
  simpa using hspec.symm
